import Mathlib

/-!
Shallow embedding of the bowman repository's hyperbolic half-plane engine
(src/bowman/halfplane.py and src/triangulation.py) over an arbitrary linearly
ordered field, together with theorems settling the frozen claims about it.

The exact-number field of the source (rational plus one square-root extension)
is the external ExactNumber collaborator of the spec; point coordinates are
modelled as elements of the field `F`, with the value of the source's
`Radical(A, B, C)` objects rendered through a square-root parameter `sq`
wherever a genuine square root is formed (only in Circle endpoints).
-/

namespace Bowman

/-- Variant tag distinguishing the two HalfPlane subclasses of
src/bowman/halfplane.py: `Line` and `Circle`. -/
inductive HPKind : Type
| line : HPKind
| circle : HPKind
deriving DecidableEq

/-- A half-plane `a*(u^2+v^2) + b*u + c >= 0`, tagged with its variant,
embedding the namedtuple `HalfPlane(a, b, c)` and its subclasses `Line`
and `Circle` from src/bowman/halfplane.py. -/
structure HalfPlane (F : Type) where
  kind : HPKind
  a : F
  b : F
  c : F
deriving DecidableEq

/-- Coordinate of a point of the ideal boundary: a field element or the
symbolic point at infinity (`oo` in the source). -/
inductive PtU (F : Type) : Type
| inf : PtU F
| fin : F → PtU F
deriving DecidableEq

/-- Modelled from the spec: the `Point` type of the missing
src/bowman/polygon.py. Field `u` is the boundary coordinate (an exact number
or infinity); the second field carries the squared height, per section 3 and
the section 9 note of the spec. -/
structure Point (F : Type) where
  u : PtU F
  v2 : F
deriving DecidableEq

variable {F : Type} [LinearOrderedField F] [DecidableEq F]

namespace HalfPlane

/-- Embeds `HalfPlane.from_ineq` of src/bowman/halfplane.py: a `Line` when
`a = 0` and `b /= 0`, a `Circle` when `a /= 0` and the discriminant is
positive, and a degenerate-coefficients failure (`none`) otherwise. -/
def from_ineq (a b c : F) : Option (HalfPlane F) :=
  if a = 0 ∧ b ≠ 0 then some ⟨HPKind.line, a, b, c⟩
  else if a ≠ 0 ∧ 0 < b ^ 2 - 4 * a * c then some ⟨HPKind.circle, a, b, c⟩
  else none

/-- Modelled from the spec: `Point._plug_point_into_halfplane` of the missing
src/bowman/polygon.py evaluates `a*(u^2 + v^2) + b*u + c` at the point's
coordinates (section 4.1 of the spec). -/
def plug (hp : HalfPlane F) (u v2 : F) : F :=
  hp.a * (u ^ 2 + v2) + hp.b * u + hp.c

/-- The ordinary-point branch of `HalfPlane.contains_point` of
src/bowman/halfplane.py: the plug-in value is zero, or positive when not
restricted to the boundary. -/
def containsFin (hp : HalfPlane F) (u v2 : F) (on_boundary : Bool) : Bool :=
  decide (hp.plug u v2 = 0) || (!on_boundary && decide (0 < hp.plug u v2))

/-- Coordinate of a Circle's center, `-b/(2a)`, from `Circle.center` of
src/bowman/halfplane.py. -/
def center_u (hp : HalfPlane F) : F := -hp.b / (2 * hp.a)

/-- Squared radius `(b^2 - 4ac)/(4a^2)` from `Circle.radius2` of
src/bowman/halfplane.py. -/
def radius2 (hp : HalfPlane F) : F := (hp.b ^ 2 - 4 * hp.a * hp.c) / (4 * hp.a ^ 2)

/-- Embeds `is_oriented`: for a `Line`, `b < 0`; for a `Circle`, whether the
circle's center satisfies the inequality (`Circle.is_oriented` calls
`contains_point(center)` on the finite point `center`). -/
def is_oriented (hp : HalfPlane F) : Bool :=
  match hp.kind with
  | HPKind.line => decide (hp.b < 0)
  | HPKind.circle => hp.containsFin hp.center_u 0 false

/-- Embeds `HalfPlane.contains_point` of src/bowman/halfplane.py: the point
at infinity is inside iff the half-plane is a Line or is unoriented (only a
Line when restricted to the boundary); an ordinary point is tested through
the plug-in value. -/
def contains_point (hp : HalfPlane F) (p : Point F) (on_boundary : Bool) : Bool :=
  match p.u with
  | PtU.inf =>
      if on_boundary then decide (hp.kind = HPKind.line)
      else decide (hp.kind = HPKind.line) || !hp.is_oriented
  | PtU.fin u => hp.containsFin u p.v2 on_boundary

/-- Boundary coordinate of `Circle.start` of src/bowman/halfplane.py: the
value of `Radical(center, +-1, radius2)`, the sign chosen by orientation;
`sq` renders the square root of the external exact-number field. -/
def circle_start_u (sq : F → F) (hp : HalfPlane F) : F :=
  hp.center_u + (if hp.is_oriented then 1 else -1) * sq hp.radius2

/-- Boundary coordinate of `Circle.end` of src/bowman/halfplane.py, the
opposite sign choice to `circle_start_u`. -/
def circle_end_u (sq : F → F) (hp : HalfPlane F) : F :=
  hp.center_u + (if hp.is_oriented then -1 else 1) * sq hp.radius2

/-- Embeds the `start` property: for a Line, `(-c/b, 0)` if oriented else
infinity; for a Circle, the orientation-chosen endpoint. -/
def start (sq : F → F) (hp : HalfPlane F) : Point F :=
  match hp.kind with
  | HPKind.line =>
      if hp.is_oriented then ⟨PtU.fin (-hp.c / hp.b), 0⟩ else ⟨PtU.inf, 0⟩
  | HPKind.circle => ⟨PtU.fin (circle_start_u sq hp), 0⟩

/-- Embeds the `end` property (named `endpt` because `end` is reserved):
the complement of `start` for a Line, the opposite endpoint for a Circle. -/
def endpt (sq : F → F) (hp : HalfPlane F) : Point F :=
  match hp.kind with
  | HPKind.line =>
      if hp.is_oriented then ⟨PtU.inf, 0⟩ else ⟨PtU.fin (-hp.c / hp.b), 0⟩
  | HPKind.circle => ⟨PtU.fin (circle_end_u sq hp), 0⟩

/-- Embeds `_point_inside`: the inside orientation witness on the real axis.
For a Line, one unit to the oriented side of the real endpoint `-c/b`; for a
Circle, the center when oriented, else one unit past the `end` endpoint. -/
def point_inside (sq : F → F) (hp : HalfPlane F) : Point F :=
  match hp.kind with
  | HPKind.line =>
      if hp.is_oriented then ⟨PtU.fin (-hp.c / hp.b - 1), 0⟩
      else ⟨PtU.fin (-hp.c / hp.b + 1), 0⟩
  | HPKind.circle =>
      if hp.is_oriented then ⟨PtU.fin hp.center_u, 0⟩
      else ⟨PtU.fin (circle_end_u sq hp + 1), 0⟩

/-- Embeds `_point_outside`: the mirror witness of `point_inside`. -/
def point_outside (sq : F → F) (hp : HalfPlane F) : Point F :=
  match hp.kind with
  | HPKind.line =>
      if hp.is_oriented then ⟨PtU.fin (-hp.c / hp.b + 1), 0⟩
      else ⟨PtU.fin (-hp.c / hp.b - 1), 0⟩
  | HPKind.circle =>
      if hp.is_oriented then ⟨PtU.fin (circle_start_u sq hp + 1), 0⟩
      else ⟨PtU.fin hp.center_u, 0⟩

/-- Embeds `HalfPlane.intersect_boundaries` of src/bowman/halfplane.py: two
Lines meet at infinity; otherwise solve the 2x2 system from the `(a, b)`
coefficients against `(-c, -c)` by Cramer's rule, failing on a singular
matrix or a negative squared height. -/
def intersect_boundaries (hp other : HalfPlane F) : Option (Point F) :=
  if hp.kind = HPKind.line ∧ other.kind = HPKind.line then some ⟨PtU.inf, 0⟩
  else
    let det := hp.a * other.b - other.a * hp.b
    if det = 0 then none
    else
      let x := (-hp.c * other.b - -other.c * hp.b) / det
      let u := (hp.a * -other.c - other.a * -hp.c) / det
      let v2 := x - u ^ 2
      if v2 < 0 then none else some ⟨PtU.fin u, v2⟩

end HalfPlane

/-- Modelled from the spec: the `Edge` type of the missing
src/bowman/polygon.py. An edge optionally references the half-plane whose
boundary it traces (absent for ideal edges); endpoints are optional because
a clipped edge can receive the `None` result of `intersect_boundaries`. -/
structure Edge (F : Type) where
  halfplane : Option (HalfPlane F)
  start : Option (Point F)
  endpt : Option (Point F)
deriving DecidableEq

/-- Modelled from the spec: an edge is ideal iff its boundary owner is
absent (section 3 of the spec; `Edge.is_ideal` lives in the missing
src/bowman/polygon.py). -/
def Edge.is_ideal (e : Edge F) : Bool := e.halfplane.isNone

/-- Strict order of boundary coordinates with infinity as the wrap point of
the circular order of the ideal boundary. -/
def uLT (x y : PtU F) : Bool :=
  match x, y with
  | PtU.fin a, PtU.fin b => decide (a < b)
  | PtU.fin _, PtU.inf => true
  | PtU.inf, _ => false

/-- Modelled from the spec: `Point.CCW` of the missing src/bowman/polygon.py,
the strict counter-clockwise orientation predicate on three ideal boundary
points (section 4.1 of the spec), rendered as strict cyclic order of the
boundary coordinates with infinity as the wrap point. -/
def Point.CCW (p1 p2 p3 : Point F) : Bool :=
  (uLT p1.u p2.u && uLT p2.u p3.u) || (uLT p2.u p3.u && uLT p3.u p1.u)
    || (uLT p3.u p1.u && uLT p1.u p2.u)

namespace HalfPlane

/-- Embeds `HalfPlane._intersect_edge_real` of src/bowman/halfplane.py.
The outer `Option` is `none` when the Python code would raise (an endpoint
or the boundary owner missing where the code dereferences it). -/
def intersect_edge_real (hp : HalfPlane F) (e : Edge F) : Option (List (Edge F)) :=
  match e.start, e.endpt with
  | some ps, some pe =>
      let cs := hp.contains_point ps false
      let ce := hp.contains_point pe false
      if cs && ce then some [e]
      else if !(cs || ce) then some []
      else
        match e.halfplane with
        | none => none
        | some ehp =>
            let p := hp.intersect_boundaries ehp
            if cs then some [⟨e.halfplane, e.start, p⟩]
            else some [⟨e.halfplane, p, e.endpt⟩]
  | _, _ => none

/-- Embeds `HalfPlane._intersect_edge_ideal` of src/bowman/halfplane.py:
the CCW-driven case analysis on containment of the two ideal endpoints. -/
def intersect_edge_ideal (sq : F → F) (hp : HalfPlane F) (e : Edge F) :
    Option (List (Edge F)) :=
  match e.start, e.endpt with
  | some ps, some pe =>
      let cs := hp.contains_point ps false
      let ce := hp.contains_point pe false
      if cs && ce then
        if Point.CCW ps pe (hp.point_outside sq) then some [e]
        else some [⟨none, e.start, some (hp.start sq)⟩,
                   ⟨none, some (hp.endpt sq), e.endpt⟩]
      else if cs != ce then
        if cs then some [⟨none, e.start, some (hp.start sq)⟩]
        else some [⟨none, some (hp.endpt sq), e.endpt⟩]
      else
        if Point.CCW ps pe (hp.point_inside sq) then some []
        else some [⟨none, some (hp.endpt sq), some (hp.start sq)⟩]
  | _, _ => none

/-- Embeds `HalfPlane.intersect_edge`: dispatch to the ideal or real
clipping algorithm on whether the edge is ideal. -/
def intersect_edge (sq : F → F) (hp : HalfPlane F) (e : Edge F) :
    Option (List (Edge F)) :=
  if e.is_ideal then hp.intersect_edge_ideal sq e else hp.intersect_edge_real e

end HalfPlane

/-- Embeds the `Triangle` of src/triangulation.py: three 2D edge vectors. -/
structure Triangle (F : Type) where
  e0 : F × F
  e1 : F × F
  e2 : F × F
deriving DecidableEq

/-- Access `triangle.edges[i]` of src/triangulation.py for an index in
`{0, 1, 2}` (the only indices the source ever uses). -/
def Triangle.edgeAt (t : Triangle F) (i : ℕ) : F × F :=
  if i = 0 then t.e0 else if i = 1 then t.e1 else t.e2

/-- Embeds the `Hinge` of src/triangulation.py: three 2D vectors derived
from a glued edge pair. -/
structure Hinge (F : Type) where
  v0 : F × F
  v1 : F × F
  v2 : F × F
deriving DecidableEq

/-- Embeds `Hinge._from_triangles` of src/triangulation.py: fails (`none`)
unless the two glued edge vectors are exact negations, and otherwise builds
`(t2.edges[l2+1], t1.edges[l1], -t1.edges[l1-1])` with indices mod 3. -/
def Hinge.fromTriangles (t1 : Triangle F) (l1 : ℕ) (t2 : Triangle F) (l2 : ℕ) :
    Option (Hinge F) :=
  if t1.edgeAt l1 = -(t2.edgeAt l2) then
    some ⟨t2.edgeAt ((l2 + 1) % 3), t1.edgeAt l1, -(t1.edgeAt ((l1 + 2) % 3))⟩
  else none

/-- Determinant of a 3x3 matrix given row-wise, by cofactor expansion along
the first row; embeds the sage `matrix(...).determinant()` calls of
src/triangulation.py. -/
def det3 (x0 y0 z0 x1 y1 z1 x2 y2 z2 : F) : F :=
  x0 * (y1 * z2 - z1 * y2) - y0 * (x1 * z2 - z1 * x2) + z0 * (x1 * y2 - y1 * x2)

/-- Embeds `Hinge.incircle_test` of src/triangulation.py: determinant of the
matrix with rows `[x, y, x^2 + y^2]` over the three hinge vectors. -/
def Hinge.incircle_test (h : Hinge F) : F :=
  det3 h.v0.1 h.v0.2 (h.v0.1 ^ 2 + h.v0.2 ^ 2)
       h.v1.1 h.v1.2 (h.v1.1 ^ 2 + h.v1.2 ^ 2)
       h.v2.1 h.v2.2 (h.v2.1 ^ 2 + h.v2.2 ^ 2)

/-- Coefficient `a` of `Hinge.halfplane` of src/triangulation.py: the
determinant of the matrix with rows `[x, y, y^2]`. -/
def Hinge.coeff_a (h : Hinge F) : F :=
  det3 h.v0.1 h.v0.2 (h.v0.2 ^ 2) h.v1.1 h.v1.2 (h.v1.2 ^ 2)
       h.v2.1 h.v2.2 (h.v2.2 ^ 2)

/-- Coefficient `b` of `Hinge.halfplane` of src/triangulation.py: twice the
determinant of the matrix with rows `[x, y, x*y]`. -/
def Hinge.coeff_b (h : Hinge F) : F :=
  2 * det3 h.v0.1 h.v0.2 (h.v0.1 * h.v0.2) h.v1.1 h.v1.2 (h.v1.1 * h.v1.2)
           h.v2.1 h.v2.2 (h.v2.1 * h.v2.2)

/-- Coefficient `c` of `Hinge.halfplane` of src/triangulation.py: the
determinant of the matrix with rows `[x, y, x^2]`. -/
def Hinge.coeff_c (h : Hinge F) : F :=
  det3 h.v0.1 h.v0.2 (h.v0.1 ^ 2) h.v1.1 h.v1.2 (h.v1.1 ^ 2)
       h.v2.1 h.v2.2 (h.v2.1 ^ 2)

/-- Embeds `Hinge.halfplane` of src/triangulation.py. Modelled from the
spec for the construction step: triangulation.py constructs through the
top-level `halfplane` module, which is not under src/; per section 4.3 of
the spec the half-plane is constructed via `from_ineq`, degenerate
coefficient triples yielding no half-plane. -/
def Hinge.halfplane (h : Hinge F) : Option (HalfPlane F) :=
  HalfPlane.from_ineq h.coeff_a h.coeff_b h.coeff_c

/-- Embeds the `Triangulation` of src/triangulation.py: a list of triangles
and the gluing map on `(triangleIndex, edgeIndex)` pairs (the Python dict is
rendered as a function; the claims only evaluate it on the enumerated
pairs). -/
structure Triangulation (F : Type) where
  triangles : List (Triangle F)
  gluings : ℕ × ℕ → ℕ × ℕ

/-- The Python tuple order `edge < other` on `(triangleIndex, edgeIndex)`
pairs: lexicographic comparison. -/
def pairLt (e f : ℕ × ℕ) : Bool :=
  decide (e.1 < f.1 ∨ (e.1 = f.1 ∧ e.2 < f.2))

/-- The full enumeration `itertools.product(range(num_triangles), range(3))`
of src/triangulation.py, in the same lexicographic order. -/
def Triangulation.allEdges (T : Triangulation F) : List (ℕ × ℕ) :=
  (List.range T.triangles.length).product (List.range 3)

/-- Embeds `Triangulation.edges` (with `gluings=False`) of
src/triangulation.py: keep the pairs that are lexicographically smaller than
their gluing image. -/
def Triangulation.edges (T : Triangulation F) : List (ℕ × ℕ) :=
  T.allEdges.filter (fun e => pairLt e (T.gluings e))

/-- Embeds `Triangulation._hinge` of src/triangulation.py: look up the two
glued triangles and build the hinge; `none` models the exceptions the Python
code can raise (missing triangle index or mismatched gluing). -/
def Triangulation.hingeAt (T : Triangulation F) (e : ℕ × ℕ) : Option (Hinge F) :=
  match T.triangles[e.1]?, T.triangles[(T.gluings e).1]? with
  | some t1, some t2 => Hinge.fromTriangles t1 e.2 t2 (T.gluings e).2
  | _, _ => none

/-- Embeds `Triangulation.hinges` of src/triangulation.py: one hinge per
canonical edge; `none` when any construction raises. -/
def Triangulation.hingesOpt (T : Triangulation F) : Option (List (Hinge F)) :=
  T.edges.mapM T.hingeAt

/-- Embeds `Triangulation.is_delaunay` of src/triangulation.py: the
conjunction of `incircle_test() >= 0` (strictly positive when `strict`)
over all hinges. -/
def Triangulation.is_delaunay (T : Triangulation F) (strict : Bool) : Option Bool :=
  T.hingesOpt.map (fun hs =>
    if strict then hs.all (fun h => decide (0 < h.incircle_test))
    else hs.all (fun h => decide (0 ≤ h.incircle_test)))

/-- Embeds `Triangulation.halfplanes` of src/triangulation.py: the
deduplicated collection of the non-degenerate hinge half-planes. Modelled
from the spec for the degeneracy filter: the source tests
`hinge.halfplane().boundary is not None` against the top-level `halfplane`
module absent from src/; per section 4.4 of the spec this keeps exactly the
hinges whose half-plane construction succeeded. -/
def Triangulation.halfplanes (T : Triangulation F) : Option (List (HalfPlane F)) :=
  T.hingesOpt.map (fun hs => (hs.filterMap Hinge.halfplane).dedup)

/-- The oriented Line `-u + 2 >= 0`, the `from_ineq(0, -1, 2)` example of
section 8 of the spec; used as concrete input by several witnesses. -/
def lineExample : HalfPlane ℚ := ⟨HPKind.line, 0, -1, 2⟩

/-- An unoriented Circle `u^2 + v^2 - 9 >= 0`, concrete witness input. -/
def circleExample : HalfPlane ℚ := ⟨HPKind.circle, 1, 0, -9⟩

/-- A hand-built square torus: the unit square split along its diagonal
into two triangles, edge `j` of triangle `i` glued to edge `j` of triangle
`1 - i`; concrete witness input for the Triangulation claims. -/
def sqTorus : Triangulation ℚ :=
  ⟨[⟨(1, 0), (0, 1), (-1, -1)⟩, ⟨(-1, 0), (0, -1), (1, 1)⟩],
   fun e => (1 - e.1, e.2)⟩

/-- The three hinges of `sqTorus`, one per canonical edge. -/
def sqTorusHinges : List (Hinge ℚ) :=
  [⟨(0, -1), (1, 0), (1, 1)⟩, ⟨(1, 1), (0, 1), (-1, 0)⟩,
   ⟨(-1, 0), (-1, -1), (0, -1)⟩]

/-- Lexicographic comparison of distinct pairs is asymmetric and total:
exactly one direction holds. -/
lemma pairLt_asymm_of_ne (e f : ℕ × ℕ) (hne : e ≠ f) :
    (pairLt e f = true ↔ pairLt f e = false) := by
  obtain ⟨e1, e2⟩ := e
  obtain ⟨f1, f2⟩ := f
  simp only [pairLt, Ne, Prod.mk.injEq, not_and, decide_eq_true_eq,
    decide_eq_false_iff_not] at hne ⊢
  omega

/-- Filtering a duplicate-free list by a strict comparison against the image
of a fixed-point-free involution keeps exactly half the elements. -/
lemma two_mul_length_filter {α : Type} [DecidableEq α]
    (l : List α) (g : α → α) (p : α → α → Bool)
    (hnd : l.Nodup)
    (hg : ∀ a ∈ l, g a ∈ l ∧ g (g a) = a ∧ g a ≠ a)
    (hp : ∀ a b, a ≠ b → (p a b = true ↔ p b a = false)) :
    2 * (l.filter (fun a => p a (g a))).length = l.length := by
  classical
  have hlenA : (l.filter (fun a => p a (g a))).length
      = (l.toFinset.filter (fun a => p a (g a) = true)).card := by
    rw [← List.toFinset_card_of_nodup (hnd.filter _)]
    congr 1
    ext x
    simp [List.mem_filter]
  have hunion : (l.toFinset.filter (fun a => p a (g a) = true))
      ∪ (l.toFinset.filter (fun a => p (g a) a = true)) = l.toFinset := by
    ext x
    simp only [Finset.mem_union, Finset.mem_filter, List.mem_toFinset]
    constructor
    · rintro (⟨hx, _⟩ | ⟨hx, _⟩) <;> exact hx
    · intro hx
      have hne : x ≠ g x := Ne.symm (hg x hx).2.2
      by_cases hpx : p x (g x) = true
      · exact Or.inl ⟨hx, hpx⟩
      · refine Or.inr ⟨hx, ?_⟩
        have := (hp (g x) x (hg x hx).2.2).mpr (Bool.eq_false_iff.mpr hpx)
        exact this
  have hdisj : Disjoint (l.toFinset.filter (fun a => p a (g a) = true))
      (l.toFinset.filter (fun a => p (g a) a = true)) := by
    rw [Finset.disjoint_left]
    intro x hxA hxB
    simp only [Finset.mem_filter, List.mem_toFinset] at hxA hxB
    have hne : x ≠ g x := Ne.symm (hg x hxA.1).2.2
    have := (hp x (g x) hne).mp hxA.2
    rw [hxB.2] at this
    exact Bool.noConfusion this
  have hAB : (l.toFinset.filter (fun a => p a (g a) = true)).card
      = (l.toFinset.filter (fun a => p (g a) a = true)).card := by
    refine Finset.card_bij (fun a _ => g a) ?_ ?_ ?_
    · intro a ha
      simp only [Finset.mem_filter, List.mem_toFinset] at ha ⊢
      refine ⟨(hg a ha.1).1, ?_⟩
      rw [(hg a ha.1).2.1]
      exact ha.2
    · intro a1 h1 a2 h2 heq
      simp only [Finset.mem_filter, List.mem_toFinset] at h1 h2
      have e1 := (hg a1 h1.1).2.1
      have e2 := (hg a2 h2.1).2.1
      have heq2 : g a1 = g a2 := heq
      exact e1.symm.trans ((congrArg g heq2).trans e2)
    · intro b hb
      simp only [Finset.mem_filter, List.mem_toFinset] at hb
      have hclose := (hg b hb.1).1
      have hinv2 := (hg b hb.1).2.1
      refine ⟨g b, ?_, hinv2⟩
      simp only [Finset.mem_filter, List.mem_toFinset]
      refine ⟨hclose, ?_⟩
      rw [hinv2]
      exact hb.2
  have hcardS : l.toFinset.card = l.length := List.toFinset_card_of_nodup hnd
  have hsum : (l.toFinset.filter (fun a => p a (g a) = true)).card
      + (l.toFinset.filter (fun a => p (g a) a = true)).card = l.length := by
    rw [← Finset.card_union_of_disjoint hdisj, hunion, hcardS]
  omega

/-- C7: `from_ineq` returns a Line exactly when `a = 0` and `b /= 0`,
returns a Circle exactly when `a /= 0` and the discriminant `b^2 - 4ac` is
positive, and fails with the degenerate-half-plane error in every other
case; in particular `from_ineq 0 0 1` and `from_ineq 1 0 1` both fail. -/
theorem claim_c7 {F : Type} [LinearOrderedField F] :
    (∀ a b c : F,
      ((HalfPlane.from_ineq a b c = some ⟨HPKind.line, a, b, c⟩) ↔ (a = 0 ∧ b ≠ 0))
      ∧ ((HalfPlane.from_ineq a b c = some ⟨HPKind.circle, a, b, c⟩)
          ↔ (a ≠ 0 ∧ 0 < b ^ 2 - 4 * a * c))
      ∧ ((HalfPlane.from_ineq a b c = none)
          ↔ (¬ (a = 0 ∧ b ≠ 0) ∧ ¬ (a ≠ 0 ∧ 0 < b ^ 2 - 4 * a * c))))
    ∧ HalfPlane.from_ineq (0 : ℚ) 0 1 = none
    ∧ HalfPlane.from_ineq (1 : ℚ) 0 1 = none := by
  refine ⟨fun a b c => ?_, by with_unfolding_all decide, by with_unfolding_all decide⟩
  unfold HalfPlane.from_ineq
  split_ifs with h1 h2 <;> simp_all

/-- C3 counterexample: for the Line `from_ineq(0, -1, 2)`, applying
`intersect_boundaries` to the line and itself does NOT return "no
intersection": it returns the point at infinity, because the two-Lines
short-circuit fires before the singular-matrix check. -/
theorem claim_c3_counterexample :
    (HalfPlane.intersect_boundaries lineExample lineExample).isSome = true
    ∧ HalfPlane.intersect_boundaries lineExample lineExample
        = some ⟨PtU.inf, 0⟩ := by
  constructor <;> with_unfolding_all decide

/-- C3 amended: `intersect_boundaries(h, h)` returns "no intersection" when
`h` is a Circle (the coefficient matrix is singular), but returns the point
at infinity when `h` is a Line (the two-Lines case precedes the
singularity check). -/
theorem claim_c3 {F : Type} [LinearOrderedField F] (h : HalfPlane F) :
    (h.kind = HPKind.circle → h.intersect_boundaries h = none)
    ∧ (h.kind = HPKind.line → h.intersect_boundaries h = some ⟨PtU.inf, 0⟩) := by
  constructor
  · intro hk
    simp [HalfPlane.intersect_boundaries, hk, sub_self]
  · intro hk
    simp [HalfPlane.intersect_boundaries, hk]

/-- C3 witness: the amended statement evaluated at a concrete Circle and
the concrete Line of the counterexample. -/
theorem claim_c3_witness :
    HalfPlane.intersect_boundaries circleExample circleExample = none
    ∧ HalfPlane.intersect_boundaries lineExample lineExample
        = some ⟨PtU.inf, 0⟩ :=
  ⟨(claim_c3 circleExample).1 rfl, (claim_c3 lineExample).2 rfl⟩

/-- C4: containment at the point at infinity holds iff the half-plane is a
Line or is unoriented (only a Line when restricted to the boundary); an
ordinary point is contained iff its plug-in value `a*(u^2+v^2) + b*u + c`
is zero, or positive when not restricted to the boundary; and the three
concrete facts about the Line `from_ineq(0, -1, 2)`. -/
theorem claim_c4 {F : Type} [LinearOrderedField F] :
    (∀ (hp : HalfPlane F) (w : F),
      (hp.contains_point ⟨PtU.inf, w⟩ false = true
        ↔ (hp.kind = HPKind.line ∨ hp.is_oriented = false)))
    ∧ (∀ (hp : HalfPlane F) (w : F),
      (hp.contains_point ⟨PtU.inf, w⟩ true = true ↔ hp.kind = HPKind.line))
    ∧ (∀ (hp : HalfPlane F) (u w : F) (ob : Bool),
      (hp.contains_point ⟨PtU.fin u, w⟩ ob = true
        ↔ (hp.a * (u ^ 2 + w) + hp.b * u + hp.c = 0
            ∨ (ob = false ∧ 0 < hp.a * (u ^ 2 + w) + hp.b * u + hp.c))))
    ∧ HalfPlane.from_ineq (0 : ℚ) (-1) 2 = some lineExample
    ∧ lineExample.contains_point ⟨PtU.fin 1, 0⟩ false = true
    ∧ lineExample.contains_point ⟨PtU.fin 3, 0⟩ false = false
    ∧ lineExample.contains_point ⟨PtU.fin 2, 0⟩ true = true := by
  refine ⟨fun hp w => ?_, fun hp w => ?_, fun hp u w ob => ?_,
    by with_unfolding_all decide, by with_unfolding_all decide,
    by with_unfolding_all decide, by with_unfolding_all decide⟩
  · simp [HalfPlane.contains_point, Bool.or_eq_true, decide_eq_true_eq,
      Bool.not_eq_true']
  · simp [HalfPlane.contains_point]
  · cases ob <;>
      simp [HalfPlane.contains_point, HalfPlane.containsFin, HalfPlane.plug,
        Bool.or_eq_true, Bool.and_eq_true, decide_eq_true_eq]

/-- C10: containment is monotone in the `on_boundary` flag: a point on the
boundary of a half-plane is also contained in the half-plane. -/
theorem claim_c10 {F : Type} [LinearOrderedField F] (hp : HalfPlane F)
    (p : Point F) (h : hp.contains_point p true = true) :
    hp.contains_point p false = true := by
  obtain ⟨u, w⟩ := p
  cases u with
  | inf =>
      simp [HalfPlane.contains_point] at h ⊢
      exact Or.inl h
  | fin u =>
      simp [HalfPlane.contains_point, HalfPlane.containsFin] at h ⊢
      exact Or.inl h

/-- C10 witness: the boundary point `(2, 0)` of the Line `-u + 2 >= 0` is
contained in the half-plane. -/
theorem claim_c10_witness :
    lineExample.contains_point ⟨PtU.fin 2, 0⟩ false = true :=
  claim_c10 lineExample ⟨PtU.fin 2, 0⟩ (by with_unfolding_all decide)

/-- C2: `Hinge.halfplane` builds the coefficients `a = det([x, y, y^2])`,
`b = 2 * det([x, y, x*y])`, `c = det([x, y, x^2])` over the three hinge
vectors and constructs the half-plane through `from_ineq`, so a coefficient
triple matching neither a Line nor a non-degenerate Circle fails with the
degenerate-half-plane error. -/
theorem claim_c2 {F : Type} [LinearOrderedField F] [DecidableEq F]
    (h : Hinge F) :
    (h.halfplane = HalfPlane.from_ineq
      (det3 h.v0.1 h.v0.2 (h.v0.2 ^ 2) h.v1.1 h.v1.2 (h.v1.2 ^ 2)
            h.v2.1 h.v2.2 (h.v2.2 ^ 2))
      (2 * det3 h.v0.1 h.v0.2 (h.v0.1 * h.v0.2) h.v1.1 h.v1.2 (h.v1.1 * h.v1.2)
            h.v2.1 h.v2.2 (h.v2.1 * h.v2.2))
      (det3 h.v0.1 h.v0.2 (h.v0.1 ^ 2) h.v1.1 h.v1.2 (h.v1.1 ^ 2)
            h.v2.1 h.v2.2 (h.v2.1 ^ 2)))
    ∧ ∀ a b c : F, ¬ (a = 0 ∧ b ≠ 0) → ¬ (a ≠ 0 ∧ 0 < b ^ 2 - 4 * a * c) →
        HalfPlane.from_ineq a b c = none := by
  refine ⟨rfl, fun a b c h1 h2 => ?_⟩
  unfold HalfPlane.from_ineq
  rw [if_neg h1, if_neg h2]

/-- C2 witness: the first square-torus hinge yields the Circle with
coefficients `(2, 2, 0)`, and the degenerate triple `(1, 0, 1)` fails. -/
theorem claim_c2_witness :
    Hinge.halfplane (⟨(0, -1), (1, 0), (1, 1)⟩ : Hinge ℚ)
      = some ⟨HPKind.circle, 2, 2, 0⟩
    ∧ HalfPlane.from_ineq (1 : ℚ) 0 1 = none :=
  ⟨(claim_c2 (⟨(0, -1), (1, 0), (1, 1)⟩ : Hinge ℚ)).1.trans
      (by with_unfolding_all decide),
   (claim_c2 (⟨(0, -1), (1, 0), (1, 1)⟩ : Hinge ℚ)).2 1 0 1
      (by with_unfolding_all decide) (by with_unfolding_all decide)⟩

/-- C1: when the hinges of a triangulation all construct, `halfplanes()`
returns a duplicate-free list holding exactly the half-planes of the hinges
whose `halfplane()` construction succeeded. -/
theorem claim_c1 {F : Type} [LinearOrderedField F] [DecidableEq F]
    (T : Triangulation F) (hs : List (Hinge F))
    (hh : T.hingesOpt = some hs) :
    ∃ l, T.halfplanes = some l ∧ l.Nodup
      ∧ ∀ hp, hp ∈ l ↔ ∃ hg ∈ hs, hg.halfplane = some hp := by
  refine ⟨(hs.filterMap Hinge.halfplane).dedup, ?_, List.nodup_dedup _,
    fun hp => ?_⟩
  · simp [Triangulation.halfplanes, hh]
  · rw [List.mem_dedup, List.mem_filterMap]

/-- C1 witness: the square torus has a computed half-plane set. -/
theorem claim_c1_witness : (sqTorus.halfplanes).isSome = true := by
  obtain ⟨l, hl, -, -⟩ :=
    claim_c1 sqTorus sqTorusHinges (by with_unfolding_all decide)
  rw [hl]
  rfl

/-- C5: clipping a non-ideal edge against a half-plane obeys the
containment trichotomy: both endpoints contained keeps the edge unchanged,
neither yields the empty sequence, and exactly one yields a single new edge
from the contained endpoint to the `intersect_boundaries` point, preserving
the boundary owner. -/
theorem claim_c5 {F : Type} [LinearOrderedField F] [DecidableEq F]
    (hp ehp : HalfPlane F) (sq : F → F) (ps pe : Point F) (e : Edge F)
    (ho : e.halfplane = some ehp) (hst : e.start = some ps)
    (hen : e.endpt = some pe) :
    (hp.contains_point ps false = true → hp.contains_point pe false = true →
      hp.intersect_edge sq e = some [e])
    ∧ (hp.contains_point ps false = false → hp.contains_point pe false = false →
      hp.intersect_edge sq e = some [])
    ∧ (hp.contains_point ps false = true → hp.contains_point pe false = false →
      hp.intersect_edge sq e
        = some [⟨some ehp, some ps, hp.intersect_boundaries ehp⟩])
    ∧ (hp.contains_point ps false = false → hp.contains_point pe false = true →
      hp.intersect_edge sq e
        = some [⟨some ehp, hp.intersect_boundaries ehp, some pe⟩]) := by
  obtain ⟨eo, es, ee⟩ := e
  simp only at ho hst hen
  subst ho hst hen
  refine ⟨fun h1 h2 => ?_, fun h1 h2 => ?_, fun h1 h2 => ?_, fun h1 h2 => ?_⟩ <;>
    simp [HalfPlane.intersect_edge, Edge.is_ideal,
      HalfPlane.intersect_edge_real, h1, h2]

/-- C5 witness: the Line `-u + 2 >= 0` clips the straddling real edge from
`(1, 0)` to `(3, 0)` owned by the circle `u^2 + v^2 - 9 >= 0` to the single
edge ending at the boundary intersection. -/
theorem claim_c5_witness :
    lineExample.intersect_edge id
        ⟨some circleExample, some ⟨PtU.fin 1, 0⟩, some ⟨PtU.fin 3, 0⟩⟩
      = some [⟨some circleExample, some ⟨PtU.fin 1, 0⟩,
          lineExample.intersect_boundaries circleExample⟩] :=
  (claim_c5 lineExample circleExample id ⟨PtU.fin 1, 0⟩ ⟨PtU.fin 3, 0⟩
      ⟨some circleExample, some ⟨PtU.fin 1, 0⟩, some ⟨PtU.fin 3, 0⟩⟩
      rfl rfl rfl).2.2.1
    (by with_unfolding_all decide) (by with_unfolding_all decide)

/-- C6: clipping an ideal edge follows the CCW-driven case analysis: both
endpoints contained keeps the edge or splits it into the two
boundary-hugging arcs according to CCW against the outside witness; exactly
one contained yields the single arc pairing the contained endpoint with the
matching half-plane endpoint; neither contained yields the empty sequence
or the complementary arc according to CCW against the inside witness. -/
theorem claim_c6 {F : Type} [LinearOrderedField F] [DecidableEq F]
    (hp : HalfPlane F) (sq : F → F) (ps pe : Point F) (e : Edge F)
    (ho : e.halfplane = none) (hst : e.start = some ps)
    (hen : e.endpt = some pe) :
    (hp.contains_point ps false = true → hp.contains_point pe false = true →
      hp.intersect_edge sq e
        = some (if Point.CCW ps pe (hp.point_outside sq) then [e]
            else [⟨none, some ps, some (hp.start sq)⟩,
                  ⟨none, some (hp.endpt sq), some pe⟩]))
    ∧ (hp.contains_point ps false = true → hp.contains_point pe false = false →
      hp.intersect_edge sq e = some [⟨none, some ps, some (hp.start sq)⟩])
    ∧ (hp.contains_point ps false = false → hp.contains_point pe false = true →
      hp.intersect_edge sq e = some [⟨none, some (hp.endpt sq), some pe⟩])
    ∧ (hp.contains_point ps false = false → hp.contains_point pe false = false →
      hp.intersect_edge sq e
        = some (if Point.CCW ps pe (hp.point_inside sq) then []
            else [⟨none, some (hp.endpt sq), some (hp.start sq)⟩])) := by
  obtain ⟨eo, es, ee⟩ := e
  simp only at ho hst hen
  subst ho hst hen
  refine ⟨fun h1 h2 => ?_, fun h1 h2 => ?_, fun h1 h2 => ?_, fun h1 h2 => ?_⟩ <;>
    simp [HalfPlane.intersect_edge, Edge.is_ideal,
      HalfPlane.intersect_edge_ideal, h1, h2] <;>
    exact (apply_ite some _ _ _).symm

/-- C6 witness: the ideal edge from `(0, 0)` to `(1, 0)`, both endpoints
contained in the Line `-u + 2 >= 0`, is kept whole because the edge runs
counter-clockwise relative to the outside witness. -/
theorem claim_c6_witness :
    lineExample.intersect_edge id
        ⟨none, some ⟨PtU.fin 0, 0⟩, some ⟨PtU.fin 1, 0⟩⟩
      = some (if Point.CCW ⟨PtU.fin 0, 0⟩ ⟨PtU.fin 1, 0⟩
              (lineExample.point_outside id) then
            [⟨none, some ⟨PtU.fin 0, 0⟩, some ⟨PtU.fin 1, 0⟩⟩]
          else [⟨none, some ⟨PtU.fin 0, 0⟩, some (lineExample.start id)⟩,
                ⟨none, some (lineExample.endpt id), some ⟨PtU.fin 1, 0⟩⟩]) :=
  (claim_c6 lineExample id ⟨PtU.fin 0, 0⟩ ⟨PtU.fin 1, 0⟩
      ⟨none, some ⟨PtU.fin 0, 0⟩, some ⟨PtU.fin 1, 0⟩⟩ rfl rfl rfl).1
    (by with_unfolding_all decide) (by with_unfolding_all decide)

/-- C8: for a triangulation whose gluing map is a fixed-point-free
involution and whose hinges all construct, `is_delaunay` is the conjunction
of `incircle_test() >= 0` over all hinges (strictly positive when strict),
and `incircle_test` is the determinant of the matrix with rows
`[x, y, x^2 + y^2]` over the hinge vectors. -/
theorem claim_c8 {F : Type} [LinearOrderedField F] [DecidableEq F]
    (T : Triangulation F) (hs : List (Hinge F))
    (hinv : ∀ e ∈ T.allEdges, T.gluings e ∈ T.allEdges
      ∧ T.gluings (T.gluings e) = e ∧ T.gluings e ≠ e)
    (hh : T.hingesOpt = some hs) :
    (T.is_delaunay false = some true ↔ ∀ h ∈ hs, 0 ≤ h.incircle_test)
    ∧ (T.is_delaunay true = some true ↔ ∀ h ∈ hs, 0 < h.incircle_test)
    ∧ ∀ h : Hinge F, h.incircle_test =
        det3 h.v0.1 h.v0.2 (h.v0.1 ^ 2 + h.v0.2 ^ 2)
             h.v1.1 h.v1.2 (h.v1.1 ^ 2 + h.v1.2 ^ 2)
             h.v2.1 h.v2.2 (h.v2.1 ^ 2 + h.v2.2 ^ 2) := by
  refine ⟨?_, ?_, fun h => rfl⟩ <;>
    simp [Triangulation.is_delaunay, hh, List.all_eq_true, decide_eq_true_eq]

/-- C8 witness: the square torus is Delaunay in the non-strict sense. -/
theorem claim_c8_witness : sqTorus.is_delaunay false = some true :=
  (claim_c8 sqTorus sqTorusHinges (by decide)
      (by with_unfolding_all decide)).1.mpr (by with_unfolding_all decide)

/-- C9: for a triangulation with a fixed-point-free involutive gluing map,
`edges()` keeps exactly the pairs lexicographically smaller than their
gluing image (one representative per glued pair, never both), and its
length is half of `3 * n`. -/
theorem claim_c9 {F : Type} [LinearOrderedField F] [DecidableEq F]
    (T : Triangulation F)
    (hinv : ∀ e ∈ T.allEdges, T.gluings e ∈ T.allEdges
      ∧ T.gluings (T.gluings e) = e ∧ T.gluings e ≠ e) :
    (∀ e, e ∈ T.edges ↔ e ∈ T.allEdges ∧ pairLt e (T.gluings e) = true)
    ∧ (∀ e ∈ T.allEdges, (T.gluings e ∈ T.edges ↔ ¬ e ∈ T.edges))
    ∧ 2 * T.edges.length = 3 * T.triangles.length := by
  have hnd : T.allEdges.Nodup :=
    List.Nodup.product (List.nodup_range _) (List.nodup_range _)
  refine ⟨fun e => List.mem_filter, fun e he => ?_, ?_⟩
  · have h1 := hinv e he
    rw [Triangulation.edges, List.mem_filter, List.mem_filter, h1.2.1]
    constructor
    · rintro ⟨-, hlt⟩ ⟨-, hlt2⟩
      have := (pairLt_asymm_of_ne e (T.gluings e) (Ne.symm h1.2.2)).mp hlt2
      rw [hlt] at this
      exact Bool.noConfusion this
    · intro hne
      refine ⟨h1.1, ?_⟩
      rcases Bool.eq_false_or_eq_true (pairLt e (T.gluings e)) with ht | hf
      · exact absurd ⟨he, ht⟩ hne
      · exact (pairLt_asymm_of_ne (T.gluings e) e h1.2.2).mpr hf
  · have hlen := two_mul_length_filter T.allEdges T.gluings pairLt hnd hinv
      pairLt_asymm_of_ne
    have hall : T.allEdges.length = T.triangles.length * 3 := by
      show ((List.range T.triangles.length) ×ˢ (List.range 3)).length
        = T.triangles.length * 3
      rw [List.length_product, List.length_range, List.length_range]
    rw [Triangulation.edges]
    omega

/-- C9 witness: the square torus has two triangles and three canonical
edges. -/
theorem claim_c9_witness : 2 * sqTorus.edges.length = 3 * sqTorus.triangles.length :=
  (claim_c9 sqTorus (by decide)).2.2

end Bowman
